import Mathlib

/- Verification of the filter-pipeline subsystem of the Multimedia-Streaming-Service
   backend. The Python sources under backend/app/filters are shallowly embedded:
   numpy float arrays become lists of rationals, numpy elementwise operations become
   List.map, a raised Python exception becomes an Option-valued result (none), and
   the external scipy primitives (signal.wiener, signal.filtfilt over Butterworth
   coefficients) are abstract function parameters, since their code is not part of
   this repository. -/

namespace MSS

/-- np.sign on rationals: 1 for positive, -1 for negative, 0 for zero. -/
def npSign (x : ℚ) : ℚ := if 0 < x then 1 else if x < 0 then -1 else 0

/-- A SampleBuffer: the numpy arrays flowing through the audio pipeline are either
1-D (mono) or of shape (n, 2) (stereo), the only shapes the extraction step
(ffmpeg -ac 2 / wavfile.read) and the filters themselves produce. Samples are
modelled as rationals. -/
inductive SampleBuffer
  | mono (samples : List ℚ)
  | stereo (samples : List (ℚ × ℚ))
deriving DecidableEq, Repr

namespace SampleBuffer

/-- Number of channels (numpy: 1 for a 1-D array, shape[1] = 2 for stereo). -/
def channelCount : SampleBuffer → ℕ
  | mono _ => 1
  | stereo _ => 2

/-- Number of samples per channel (numpy shape[0]). -/
def sampleCount : SampleBuffer → ℕ
  | mono l => l.length
  | stereo l => l.length

/-- Elementwise application of a scalar function (numpy broadcasting of a
pointwise operation over the whole array). -/
def mapSamples (f : ℚ → ℚ) : SampleBuffer → SampleBuffer
  | mono l => mono (l.map f)
  | stereo l => stereo (l.map fun p => (f p.1, f p.2))

/-- The sample at channel c, index n (0 outside the array). -/
def sampleAt : SampleBuffer → ℕ → ℕ → ℚ
  | mono l, _, n => l.getD n 0
  | stereo l, 0, n => (l.getD n (0, 0)).1
  | stereo l, _, n => (l.getD n (0, 0)).2

/-- np.max(np.abs(x)) over the whole array (0 for the empty array, on which
numpy would raise; callers guard emptiness). -/
def maxAbs : SampleBuffer → ℚ
  | mono l => (l.map fun x => |x|).foldr max 0
  | stereo l => (l.map fun p => max |p.1| |p.2|).foldr max 0

end SampleBuffer

/-- One sample of gain compression, from backend/app/filters/audio/gain_compression.py:
the boolean mask is `np.abs(compressed) > threshold`, and masked samples become
`np.sign(x) * (threshold + (np.abs(x) - threshold) / ratio)`. -/
def gcSample (threshold ratio x : ℚ) : ℚ :=
  if threshold < |x| then npSign x * (threshold + (|x| - threshold) / ratio) else x

/-- apply_gain_compression (gain_compression.py). The initial astype(np.float32)
copy makes the `if compressed.dtype != np.float32` renormalization branch dead
code, so the function is exactly the elementwise masked update. -/
def apply_gain_compression (audio_data : SampleBuffer) (threshold ratio : ℚ) : SampleBuffer :=
  audio_data.mapSamples (gcSample threshold ratio)

theorem SampleBuffer.sampleAt_mapSamples (f : ℚ → ℚ) (hf : f 0 = 0)
    (buf : SampleBuffer) (c n : ℕ) :
    (buf.mapSamples f).sampleAt c n = f (buf.sampleAt c n) := by
  cases buf with
  | mono l =>
    simp only [mapSamples, sampleAt, List.getD_eq_getElem?_getD, List.getElem?_map]
    cases l[n]? <;> simp [hf]
  | stereo l =>
    cases c with
    | zero =>
      simp only [mapSamples, sampleAt, List.getD_eq_getElem?_getD, List.getElem?_map]
      cases l[n]? <;> simp [hf]
    | succ c =>
      simp only [mapSamples, sampleAt, List.getD_eq_getElem?_getD, List.getElem?_map]
      cases l[n]? <;> simp [hf]

theorem gcSample_zero (threshold ratio : ℚ) : gcSample threshold ratio 0 = 0 := by
  simp [gcSample, npSign]

/-- Claim C3: for every sample buffer, threshold in (0,1] and ratio at least 1,
gain compression replaces each sample x with magnitude above threshold by
sign(x) * (threshold + (|x| - threshold) / ratio), and leaves every sample with
magnitude at most threshold unchanged. -/
theorem gain_compression_formula (buf : SampleBuffer) (threshold ratio : ℚ)
    (ht0 : 0 < threshold) (ht1 : threshold ≤ 1) (hr : 1 ≤ ratio) (c n : ℕ) :
    (|buf.sampleAt c n| ≤ threshold →
      (apply_gain_compression buf threshold ratio).sampleAt c n = buf.sampleAt c n) ∧
    (threshold < |buf.sampleAt c n| →
      (apply_gain_compression buf threshold ratio).sampleAt c n =
        npSign (buf.sampleAt c n) *
          (threshold + (|buf.sampleAt c n| - threshold) / ratio)) := by
  have h := SampleBuffer.sampleAt_mapSamples (gcSample threshold ratio)
    (gcSample_zero threshold ratio) buf c n
  constructor
  · intro hle
    rw [apply_gain_compression, h, gcSample, if_neg (not_lt.mpr hle)]
  · intro hgt
    rw [apply_gain_compression, h, gcSample, if_pos hgt]

theorem gain_compression_formula_witness :
    (0 : ℚ) < 1/2 ∧
    (apply_gain_compression (SampleBuffer.mono [9/10, 3/10]) (1/2) 4).sampleAt 0 0 =
      npSign ((SampleBuffer.mono [9/10, 3/10]).sampleAt 0 0) *
        (1/2 + (|(SampleBuffer.mono [9/10, 3/10]).sampleAt 0 0| - 1/2) / 4) :=
  ⟨by norm_num,
    (gain_compression_formula (SampleBuffer.mono [9/10, 3/10]) (1/2) 4
      (by norm_num) (by norm_num) (by norm_num) 0 0).2
      (by
        simp only [SampleBuffer.sampleAt, List.getD_cons_zero]
        rw [abs_of_nonneg (by norm_num : (0:ℚ) ≤ 9/10)]
        norm_num)⟩

theorem gcSample_abs_le (threshold ratio x : ℚ)
    (ht0 : 0 < threshold) (hr : 1 ≤ ratio) :
    |gcSample threshold ratio x| ≤ |x| := by
  unfold gcSample
  split
  · rename_i hgt
    have habs : (0 : ℚ) < |x| := lt_trans ht0 hgt
    have hsg : |npSign x| = 1 := by
      unfold npSign
      rcases lt_trichotomy x 0 with hneg | hz | hpos
      · rw [if_neg (by linarith), if_pos hneg]; norm_num
      · exfalso; rw [hz] at habs; simp at habs
      · rw [if_pos hpos]; norm_num
    rw [abs_mul, hsg, one_mul]
    have h1 : (0 : ℚ) < |x| - threshold := by linarith
    have h2 : (|x| - threshold) / ratio ≤ |x| - threshold :=
      div_le_self (le_of_lt h1) hr
    have h3 : (0 : ℚ) ≤ threshold + (|x| - threshold) / ratio := by
      have : (0 : ℚ) ≤ (|x| - threshold) / ratio := by positivity
      linarith
    rw [abs_of_nonneg h3]
    linarith
  · exact le_refl _

/-- Claim C10: on a buffer already normalized to magnitude at most 1, with
threshold in (0,1] and ratio at least 1, gain compression never increases a
sample magnitude, and in particular keeps every output magnitude at most 1. -/
theorem gain_compression_preserves_unit_range (buf : SampleBuffer) (threshold ratio : ℚ)
    (ht0 : 0 < threshold) (ht1 : threshold ≤ 1) (hr : 1 ≤ ratio)
    (hbuf : ∀ c n, |buf.sampleAt c n| ≤ 1) :
    (∀ c n, |(apply_gain_compression buf threshold ratio).sampleAt c n| ≤
      |buf.sampleAt c n|) ∧
    (∀ c n, |(apply_gain_compression buf threshold ratio).sampleAt c n| ≤ 1) := by
  have key : ∀ c n, |(apply_gain_compression buf threshold ratio).sampleAt c n| ≤
      |buf.sampleAt c n| := by
    intro c n
    rw [apply_gain_compression, SampleBuffer.sampleAt_mapSamples _
      (gcSample_zero threshold ratio)]
    exact gcSample_abs_le threshold ratio _ ht0 hr
  exact ⟨key, fun c n => le_trans (key c n) (hbuf c n)⟩

theorem gain_compression_preserves_unit_range_witness :
    |(apply_gain_compression (SampleBuffer.mono [9/10, -(3/10)]) (1/2) 4).sampleAt 0 0| ≤ 1 :=
  (gain_compression_preserves_unit_range (SampleBuffer.mono [9/10, -(3/10)]) (1/2) 4
    (by norm_num) (by norm_num) (by norm_num)
    (by
      intro c n
      match n with
      | 0 =>
        simp only [SampleBuffer.sampleAt, List.getD_cons_zero]
        rw [abs_of_nonneg (by norm_num : (0:ℚ) ≤ 9/10)]
        norm_num
      | 1 =>
        simp only [SampleBuffer.sampleAt, List.getD_cons_succ, List.getD_cons_zero]
        rw [abs_of_nonpos (by norm_num : -(3/10) ≤ (0:ℚ))]
        norm_num
      | (n+2) =>
        simp [SampleBuffer.sampleAt, List.getD])).2 0 0

/- ---------------------------------------------------------------------------
   save_audio_to_wav (backend/app/filters/audio/utils.py), float branch.
   Serialization must account for IEEE non-finite float values, so samples at
   this boundary are modelled by FSample. -/

/-- A float sample: a finite rational value, or one of the IEEE non-finite
values (+inf, -inf, NaN) a filter chain could in principle produce. -/
inductive FSample
  | fin (q : ℚ)
  | pinf
  | ninf
  | nan
deriving DecidableEq, Repr

/-- np.clip(x, -1.0, 1.0) on a finite float, i.e.
np.minimum(np.maximum(x, -1), 1). -/
def clipQ (q : ℚ) : ℚ := if q < -1 then -1 else if 1 < q then 1 else q

/-- np.clip(x, -1.0, 1.0) on a float sample: +inf clips to 1, -inf to -1, and
NaN propagates (np.maximum/np.minimum return NaN when an operand is NaN). -/
def npClipUnit : FSample → FSample
  | .fin q => .fin (clipQ q)
  | .pinf => .fin 1
  | .ninf => .fin (-1)
  | .nan => .nan

/-- Multiplication of a float sample by a positive constant (the `* 32767`
step); non-finite values are preserved. -/
def fscale (c : ℚ) : FSample → FSample
  | .fin q => .fin (q * c)
  | .pinf => .pinf
  | .ninf => .ninf
  | .nan => .nan

/-- Python/C float-to-int truncation toward zero. -/
def ratTruncInt (q : ℚ) : ℤ := if 0 ≤ q then ⌊q⌋ else ⌈q⌉

/-- numpy astype(np.int16): truncation toward zero for finite in-range values;
for NaN, infinities and out-of-range values the result is platform-dependent
(C undefined behaviour), modelled as none. -/
def astypeInt16 : FSample → Option ℤ
  | .fin q =>
    if -32768 ≤ ratTruncInt q ∧ ratTruncInt q ≤ 32767 then some (ratTruncInt q) else none
  | _ => none

/-- save_audio_to_wav (utils.py), dtype != int16 branch: the buffer is clipped
with np.clip(·, -1.0, 1.0), scaled by 32767 and cast to int16, then written by
wavfile.write. The result list holds the serialized integer samples. -/
def save_audio_to_wav (audio_data : List FSample) : List (Option ℤ) :=
  audio_data.map fun s => astypeInt16 (fscale 32767 (npClipUnit s))

theorem clipQ_bounds (q : ℚ) : -1 ≤ clipQ q ∧ clipQ q ≤ 1 := by
  unfold clipQ
  split
  · norm_num
  · split
    · norm_num
    · constructor <;> linarith

theorem ratTruncInt_bounds (x : ℚ) (h1 : -32767 ≤ x) (h2 : x ≤ 32767) :
    -32768 ≤ ratTruncInt x ∧ ratTruncInt x ≤ 32767 := by
  unfold ratTruncInt
  split
  · refine ⟨Int.le_floor.mpr (by push_cast; linarith), ?_⟩
    have h := Int.floor_le x
    exact_mod_cast le_trans h h2
  · refine ⟨?_, Int.ceil_le.mpr (by push_cast; linarith)⟩
    have h := Int.le_ceil x
    exact_mod_cast le_trans (by linarith : (-32768 : ℚ) ≤ x) h

theorem ratTruncInt_32767 : ratTruncInt 32767 = 32767 := by
  unfold ratTruncInt
  rw [if_pos (by norm_num)]
  rw [show ((32767 : ℚ)) = ((32767 : ℤ) : ℚ) by norm_num, Int.floor_intCast]

theorem ratTruncInt_neg_32767 : ratTruncInt (-32767) = -32767 := by
  unfold ratTruncInt
  rw [if_neg (by norm_num)]
  rw [show ((-32767 : ℚ)) = ((-32767 : ℤ) : ℚ) by norm_num, Int.ceil_intCast]

theorem astypeInt16_clipped (q : ℚ) (h1 : -1 ≤ q) (h2 : q ≤ 1) :
    astypeInt16 (.fin (q * 32767)) = some (ratTruncInt (q * 32767)) := by
  have hb := ratTruncInt_bounds (q * 32767) (by linarith) (by linarith)
  simp only [astypeInt16]
  rw [if_pos hb]

/-- Claim C5 corrected: the counterexample to "every non-finite sample is
replaced with zero before serialization" — a +inf sample serializes as 32767,
not 0, because np.clip sends +inf to the upper clip bound. -/
theorem save_audio_to_wav_inf_counterexample :
    save_audio_to_wav [FSample.pinf] = [some 32767] ∧
    ([some 32767] : List (Option ℤ)) ≠ [some 0] := by
  constructor
  · show [astypeInt16 (fscale 32767 (npClipUnit .pinf))] = [some 32767]
    rw [show fscale 32767 (npClipUnit .pinf) = .fin 32767 by
      simp [npClipUnit, fscale]]
    simp [astypeInt16, ratTruncInt_32767]
  · decide

/-- Claim C5 (amended): save_audio_to_wav clips every finite sample to [-1,1]
and converts it to a 16-bit signed integer (truncation toward zero of
clip(x) * 32767); non-finite samples are NOT replaced with zero: +inf is
clipped to 1 and serializes as 32767, -inf to -1 and serializes as -32767, and
NaN propagates through the clip with a platform-dependent integer result
(modelled as none). -/
theorem save_audio_to_wav_spec (buf : List FSample) (i : ℕ) :
    (save_audio_to_wav buf).length = buf.length ∧
    (∀ q, buf.getD i .nan = .fin q →
      (save_audio_to_wav buf).getD i none = some (ratTruncInt (clipQ q * 32767))) ∧
    (buf.getD i .nan = .pinf → (save_audio_to_wav buf).getD i none = some 32767) ∧
    (buf.getD i .nan = .ninf → (save_audio_to_wav buf).getD i none = some (-32767)) ∧
    (buf.getD i .nan = .nan → (save_audio_to_wav buf).getD i none = none) := by
  have hlen : (save_audio_to_wav buf).length = buf.length := by
    simp [save_audio_to_wav]
  have hii : ∀ s, buf.getD i .nan = s → buf[i]? = some s ∨ (buf[i]? = none ∧ s = .nan) := by
    intro s hs
    cases h : buf[i]? with
    | none =>
      right
      refine ⟨rfl, ?_⟩
      rw [List.getD_eq_getElem?_getD, h] at hs
      simpa using hs.symm
    | some a =>
      left
      rw [List.getD_eq_getElem?_getD, h] at hs
      simp at hs
      rw [hs]
  have hmap : ∀ a, buf[i]? = some a →
      (save_audio_to_wav buf).getD i none = astypeInt16 (fscale 32767 (npClipUnit a)) := by
    intro a ha
    rw [List.getD_eq_getElem?_getD]
    simp [save_audio_to_wav, List.getElem?_map, ha]
  have hnone : buf[i]? = none → (save_audio_to_wav buf).getD i none = none := by
    intro ha
    rw [List.getD_eq_getElem?_getD]
    simp [save_audio_to_wav, List.getElem?_map, ha]
  refine ⟨hlen, ?_, ?_, ?_, ?_⟩
  · intro q hq
    rcases hii _ hq with h | ⟨_, h⟩
    · rw [hmap _ h]
      have hb := clipQ_bounds q
      exact astypeInt16_clipped _ hb.1 hb.2
    · exact absurd h (by simp)
  · intro hq
    rcases hii _ hq with h | ⟨_, h⟩
    · rw [hmap _ h]
      rw [show fscale 32767 (npClipUnit .pinf) = .fin 32767 by simp [npClipUnit, fscale]]
      simp [astypeInt16, ratTruncInt_32767]
    · exact absurd h (by simp)
  · intro hq
    rcases hii _ hq with h | ⟨_, h⟩
    · rw [hmap _ h]
      rw [show fscale 32767 (npClipUnit .ninf) = .fin (-32767) by
        simp [npClipUnit, fscale]]
      simp [astypeInt16, ratTruncInt_neg_32767]
    · exact absurd h (by simp)
  · intro hq
    rcases hii _ hq with h | ⟨hn, _⟩
    · rw [hmap _ h]
      rfl
    · exact hnone hn

theorem save_audio_to_wav_spec_witness :
    (save_audio_to_wav [FSample.fin (1/2)]).getD 0 none =
      some (ratTruncInt (clipQ (1/2) * 32767)) :=
  (save_audio_to_wav_spec [FSample.fin (1/2)] 0).2.1 (1/2) rfl

/- ---------------------------------------------------------------------------
   apply_denoise_delay (backend/app/filters/audio/denoise_delay.py).
   scipy.signal.wiener is abstracted as a function parameter
   (wiener_size -> signal -> signal); its code is not in this repository. -/

/-- np.max(np.abs(l)) over a 1-D array (numpy raises on an empty array;
callers guard emptiness). -/
def maxAbsList (l : List ℚ) : ℚ := (l.map fun x => |x|).foldr max 0

/-- The shared entry renormalization found at the top of the DSP filters:
`if np.max(np.abs(x)) > 1.0: x = x / 32767.0`. -/
def entryNormalize (l : List ℚ) : List ℚ :=
  if 1 < maxAbsList l then l.map fun x => x / 32767 else l

/-- The trailing renormalization of denoise_delay and car:
`max_val = np.max(np.abs(x)); if max_val > 1.0: x = x / max_val`. -/
def normalizeClip (l : List ℚ) : List ℚ :=
  if 1 < maxAbsList l then l.map fun x => x / maxAbsList l else l

/-- `delay_samples = int(delay_ms * sample_rate / 1000)`: Python int()
truncates toward zero. -/
def delaySamplesCode (delay_ms sample_rate : ℚ) : ℤ :=
  ratTruncInt (delay_ms * sample_rate / 1000)

/-- The numpy echo step on one channel, for a delay offset ds ≥ 1:
`delayed = denoised.copy(); delayed[ds:] += decay * denoised[:-ds]`. -/
def addEcho (ds : ℕ) (decay : ℚ) (d : List ℚ) : List ℚ :=
  d.take ds ++ List.zipWith (fun a b => a + decay * b) (d.drop ds) (d.take (d.length - ds))

/-- The denoised signal: the wiener primitive applied to the entry-normalized
input of one channel. -/
def denoisedSignal (wiener : ℚ → List ℚ → List ℚ) (wiener_size : ℚ) (audio : List ℚ) :
    List ℚ :=
  wiener wiener_size audio

/-- apply_denoise_delay (denoise_delay.py), for the 1-D (mono) and (n,2)
(stereo) shapes the pipeline produces. none models a raised exception: the
empty buffer (np.max over an empty array raises), a negative delay offset
(negative-index slicing, outside this model; delay_ms is documented positive),
a zero delay offset with a nonempty signal (numpy broadcasting error, shapes
(n,) and (0,)), and, on the stereo path, a wiener result whose length does not
match the np.zeros_like column it is assigned into. -/
def apply_denoise_delay (wiener : ℚ → List ℚ → List ℚ)
    (sample_rate delay_ms decay wiener_size : ℚ) :
    SampleBuffer → Option SampleBuffer
  | .mono audio =>
    if audio.length = 0 then none
    else
      let d := denoisedSignal wiener wiener_size (entryNormalize audio)
      let dsz := delaySamplesCode delay_ms sample_rate
      if dsz < 0 then none
      else if dsz = 0 ∧ d.length ≠ 0 then none
      else some (.mono (normalizeClip (addEcho dsz.toNat decay d)))
  | .stereo s =>
    if s.length = 0 then none
    else
      let sN := if 1 < (SampleBuffer.stereo s).maxAbs
        then s.map (fun p => (p.1 / 32767, p.2 / 32767)) else s
      let dL := wiener wiener_size (sN.map Prod.fst)
      let dR := wiener wiener_size (sN.map Prod.snd)
      if dL.length ≠ s.length ∨ dR.length ≠ s.length then none
      else
        let dsz := delaySamplesCode delay_ms sample_rate
        if dsz < 0 then none
        else if dsz = 0 ∧ s.length ≠ 0 then none
        else
          let eL := addEcho dsz.toNat decay dL
          let eR := addEcho dsz.toNat decay dR
          let m := max (maxAbsList eL) (maxAbsList eR)
          if 1 < m then some (.stereo (List.zipWith (fun a b => (a / m, b / m)) eL eR))
          else some (.stereo (List.zipWith (fun a b => (a, b)) eL eR))

theorem getD_zipWith (f : ℚ → ℚ → ℚ) (l1 l2 : List ℚ) (n : ℕ)
    (h1 : n < l1.length) (h2 : n < l2.length) :
    (List.zipWith f l1 l2).getD n 0 = f (l1.getD n 0) (l2.getD n 0) := by
  induction l1 generalizing l2 n with
  | nil => simp at h1
  | cons a l ih =>
    cases l2 with
    | nil => simp at h2
    | cons b l2 =>
      cases n with
      | zero => rfl
      | succ n => simpa using ih l2 n (by simpa using h1) (by simpa using h2)

theorem getD_take (l : List ℚ) (k n : ℕ) (h : n < k) :
    (l.take k).getD n 0 = l.getD n 0 := by
  induction l generalizing k n with
  | nil => simp
  | cons a l ih =>
    cases k with
    | zero => omega
    | succ k =>
      cases n with
      | zero => rfl
      | succ n => simpa using ih k n (by omega)

theorem getD_drop (l : List ℚ) (k n : ℕ) :
    (l.drop k).getD n 0 = l.getD (k + n) 0 := by
  induction l generalizing k n with
  | nil => simp
  | cons a l ih =>
    cases k with
    | zero => simp
    | succ k =>
      have hkn : k + 1 + n = (k + n) + 1 := by omega
      rw [List.drop_succ_cons, hkn, List.getD_cons_succ]
      exact ih k n

theorem addEcho_length (ds : ℕ) (decay : ℚ) (d : List ℚ) :
    (addEcho ds decay d).length = d.length := by
  simp [addEcho]
  omega

theorem addEcho_getD_before (ds : ℕ) (decay : ℚ) (d : List ℚ) (n : ℕ) (h : n < ds) :
    (addEcho ds decay d).getD n 0 = d.getD n 0 := by
  by_cases hn : n < d.length
  · unfold addEcho
    rw [List.getD_append _ _ _ _ (by simp; omega), getD_take _ _ _ h]
  · rw [List.getD_eq_default _ _ (by rw [addEcho_length]; omega),
      List.getD_eq_default _ _ (by omega)]

theorem addEcho_getD_from (ds : ℕ) (decay : ℚ) (d : List ℚ) (n : ℕ)
    (hlo : ds ≤ n) (hhi : n < d.length) :
    (addEcho ds decay d).getD n 0 = d.getD n 0 + decay * d.getD (n - ds) 0 := by
  unfold addEcho
  have htk : (d.take ds).length = ds := by simp; omega
  rw [List.getD_append_right _ _ _ _ (by omega), htk,
    getD_zipWith _ _ _ _ (by simp; omega) (by simp; omega),
    getD_drop, getD_take _ _ _ (by omega)]
  congr 2
  omega

theorem ratTruncInt_eq_of_nonneg (q : ℚ) (z : ℤ) (h0 : 0 ≤ q)
    (h1 : (z : ℚ) ≤ q) (h2 : q < z + 1) : ratTruncInt q = z := by
  unfold ratTruncInt
  rw [if_pos h0, Int.floor_eq_iff]
  exact ⟨h1, h2⟩

theorem delaySamplesCode_one_1999 : delaySamplesCode 1 1999 = 1 := by
  unfold delaySamplesCode
  rw [show (1 : ℚ) * 1999 / 1000 = 1999/1000 by norm_num]
  exact ratTruncInt_eq_of_nonneg _ 1 (by norm_num) (by norm_num) (by norm_num)

/-- Claim C6 corrected: the counterexample to "delaySamples is the
round-to-nearest of delay_ms * sampleRate / 1000". With delay_ms = 1 and
sampleRate = 1999 the code truncates 1.999 to offset 1 and places the echo at
index 1, while rounding to nearest would give offset 2 and place it at
index 2. -/
theorem denoise_delay_round_counterexample :
    delaySamplesCode 1 1999 = 1 ∧
    round ((1 : ℚ) * 1999 / 1000) = 2 ∧
    apply_denoise_delay (fun _ l => l) 1999 1 (1/2) 1001
        (.mono [1/2, 0, 0]) = some (.mono [1/2, 1/4, 0]) ∧
    some (SampleBuffer.mono [1/2, 1/4, 0]) ≠ some (SampleBuffer.mono [1/2, 0, 1/4]) := by
  refine ⟨delaySamplesCode_one_1999, ?_, ?_, ?_⟩
  · rw [show ((1 : ℚ) * 1999 / 1000) = 1999/1000 by norm_num, round_eq,
      show (1999 : ℚ)/1000 + 1/2 = 2499/1000 by norm_num, Int.floor_eq_iff]
    constructor <;> norm_num
  · have hm : maxAbsList [1/2, 0, 0] ≤ 1 := by
      simp only [maxAbsList, List.map_cons, List.map_nil, List.foldr_cons,
        List.foldr_nil, max_le_iff, abs_le]
      norm_num
    have h1 : entryNormalize [1/2, 0, 0] = [1/2, 0, 0] := by
      unfold entryNormalize
      rw [if_neg (not_lt.mpr hm)]
    have h3 : addEcho 1 (1/2) [1/2, 0, 0] = [1/2, 1/4, 0] := by
      unfold addEcho
      norm_num
    have hm4 : maxAbsList [1/2, 1/4, 0] ≤ 1 := by
      simp only [maxAbsList, List.map_cons, List.map_nil, List.foldr_cons,
        List.foldr_nil, max_le_iff, abs_le]
      norm_num
    have h4 : normalizeClip [1/2, 1/4, 0] = [1/2, 1/4, 0] := by
      unfold normalizeClip
      rw [if_neg (not_lt.mpr hm4)]
    simp only [apply_denoise_delay, denoisedSignal, h1, delaySamplesCode_one_1999]
    norm_num [h3, h4]
  · simp

/-- Claim C6 (amended): the echo offset is the truncation toward zero (Python
int()) of delay_ms * sampleRate / 1000, not the round-to-nearest; with that
offset ds ≥ 1, the filter output is the renormalization of the echoed signal
y with y[n] = d[n] + decay * d[n - ds] for ds ≤ n < len(d) and y[n] = d[n] for
n < ds (no wraparound), where d is the denoised signal. -/
theorem denoise_delay_echo_spec (wiener : ℚ → List ℚ → List ℚ)
    (sample_rate delay_ms decay wiener_size : ℚ) (audio : List ℚ)
    (hne : audio.length ≠ 0) (hds : 1 ≤ delaySamplesCode delay_ms sample_rate) :
    delaySamplesCode delay_ms sample_rate = ratTruncInt (delay_ms * sample_rate / 1000) ∧
    apply_denoise_delay wiener sample_rate delay_ms decay wiener_size (.mono audio) =
      some (.mono (normalizeClip
        (addEcho (delaySamplesCode delay_ms sample_rate).toNat decay
          (denoisedSignal wiener wiener_size (entryNormalize audio))))) ∧
    (∀ d : List ℚ, ∀ n < (delaySamplesCode delay_ms sample_rate).toNat,
      (addEcho (delaySamplesCode delay_ms sample_rate).toNat decay d).getD n 0 =
        d.getD n 0) ∧
    (∀ d : List ℚ, ∀ n, (delaySamplesCode delay_ms sample_rate).toNat ≤ n →
      n < d.length →
      (addEcho (delaySamplesCode delay_ms sample_rate).toNat decay d).getD n 0 =
        d.getD n 0 + decay *
          d.getD (n - (delaySamplesCode delay_ms sample_rate).toNat) 0) := by
  refine ⟨rfl, ?_, ?_, ?_⟩
  · simp only [apply_denoise_delay]
    rw [if_neg hne, if_neg (by omega), if_neg (by
      intro hc
      omega)]
  · intro d n hn
    exact addEcho_getD_before _ _ _ _ hn
  · intro d n hlo hhi
    exact addEcho_getD_from _ _ _ _ hlo hhi

theorem denoise_delay_echo_spec_witness :
    apply_denoise_delay (fun _ l => l) 1999 1 (1/3) 1001 (.mono [1, 0, 0]) =
      some (.mono (normalizeClip
        (addEcho (delaySamplesCode 1 1999).toNat (1/3)
          (denoisedSignal (fun _ l => l) 1001 (entryNormalize [1, 0, 0]))))) :=
  (denoise_delay_echo_spec (fun _ l => l) 1999 1 (1/3) 1001 [1, 0, 0]
    (by decide) (by rw [delaySamplesCode_one_1999])).2.1

/- ---------------------------------------------------------------------------
   apply_voice_enhancement, apply_phone_effect, apply_car_effect
   (backend/app/filters/audio/voice_enhancement.py, phone.py, car.py).
   scipy.signal.filtfilt over the designed Butterworth coefficients is
   abstracted as a function parameter per filter; scipy.signal.butter raises
   unless every normalized critical frequency lies strictly inside (0, 1),
   which bounds the admissible sample rate per filter (modelled as none). -/

/-- The pre-emphasis loop `pre[0] = x[0]; pre[i] = x[i] - alpha * x[i-1]`
on one channel. -/
def preEmphasis (alpha : ℚ) (l : List ℚ) : List ℚ :=
  match l with
  | [] => []
  | x :: xs => x :: List.zipWith (fun cur prev => cur - alpha * prev) xs l

/-- The pre-emphasis loop applied rowwise to an (n,2) array. -/
def preEmphasisSt (alpha : ℚ) (l : List (ℚ × ℚ)) : List (ℚ × ℚ) :=
  match l with
  | [] => []
  | x :: xs =>
    x :: List.zipWith
      (fun cur prev => (cur.1 - alpha * prev.1, cur.2 - alpha * prev.2)) xs l

/-- apply_voice_enhancement (voice_enhancement.py): entry renormalization,
pre-emphasis, then the zero-phase band-pass 800-6000 Hz per channel. none
models a raised exception: empty input (np.max raises), a sample rate with
6000/(sample_rate/2) outside (0,1) (butter raises unless 12000 < sample_rate),
or, on the stereo path, a filtfilt result that does not fit the
np.zeros_like column. -/
def apply_voice_enhancement (filtfilt : List ℚ → List ℚ) (sample_rate alpha : ℚ) :
    SampleBuffer → Option SampleBuffer
  | .mono audio =>
    if audio.length = 0 then none
    else if ¬ (12000 < sample_rate) then none
    else some (.mono (filtfilt (preEmphasis alpha (entryNormalize audio))))
  | .stereo s =>
    if s.length = 0 then none
    else if ¬ (12000 < sample_rate) then none
    else
      let sN := if 1 < (SampleBuffer.stereo s).maxAbs
        then s.map (fun p => (p.1 / 32767, p.2 / 32767)) else s
      let pre := preEmphasisSt alpha sN
      let eL := filtfilt (pre.map Prod.fst)
      let eR := filtfilt (pre.map Prod.snd)
      if eL.length ≠ s.length ∨ eR.length ≠ s.length then none
      else some (.stereo (List.zipWith (fun a b => (a, b)) eL eR))

/-- apply_phone_effect (phone.py): entry renormalization, stereo downmixed to
mono by channel averaging and duplicated into both columns, then the
zero-phase band-pass 800-12000 Hz per channel (butter raises unless
24000 < sample_rate). -/
def apply_phone_effect (filtfilt : List ℚ → List ℚ) (sample_rate : ℚ) :
    SampleBuffer → Option SampleBuffer
  | .mono audio =>
    if audio.length = 0 then none
    else if ¬ (24000 < sample_rate) then none
    else some (.mono (filtfilt (entryNormalize audio)))
  | .stereo s =>
    if s.length = 0 then none
    else if ¬ (24000 < sample_rate) then none
    else
      let sN := if 1 < (SampleBuffer.stereo s).maxAbs
        then s.map (fun p => (p.1 / 32767, p.2 / 32767)) else s
      let monoMix := sN.map (fun p => (p.1 + p.2) / 2)
      let f := filtfilt monoMix
      if f.length ≠ s.length then none
      else some (.stereo (List.zipWith (fun a b => (a, b)) f f))

/-- apply_car_effect (car.py): entry renormalization; a stereo input is
mid/side decomposed with the side amplified by 1.5; a mono input is
duplicated into two identical channels (`# Mono - convert to stereo`); then
the zero-phase low-pass at 10000 Hz per channel (butter raises unless
20000 < sample_rate) and a global renormalization. The result is always a
two-channel buffer. -/
def apply_car_effect (filtfilt : List ℚ → List ℚ) (sample_rate : ℚ) :
    SampleBuffer → Option SampleBuffer
  | .mono audio =>
    if audio.length = 0 then none
    else if ¬ (20000 < sample_rate) then none
    else
      let f := filtfilt (entryNormalize audio)
      if f.length ≠ audio.length then none
      else
        let m := maxAbsList f
        if 1 < m then some (.stereo (List.zipWith (fun a b => (a / m, b / m)) f f))
        else some (.stereo (List.zipWith (fun a b => (a, b)) f f))
  | .stereo s =>
    if s.length = 0 then none
    else if ¬ (20000 < sample_rate) then none
    else
      let sN := if 1 < (SampleBuffer.stereo s).maxAbs
        then s.map (fun p => (p.1 / 32767, p.2 / 32767)) else s
      let enh := sN.map (fun p =>
        ((p.1 + p.2) / 2 + ((p.1 - p.2) / 2) * (3/2),
         (p.1 + p.2) / 2 - ((p.1 - p.2) / 2) * (3/2)))
      let fL := filtfilt (enh.map Prod.fst)
      let fR := filtfilt (enh.map Prod.snd)
      if fL.length ≠ s.length ∨ fR.length ≠ s.length then none
      else
        let m := max (maxAbsList fL) (maxAbsList fR)
        if 1 < m then some (.stereo (List.zipWith (fun a b => (a / m, b / m)) fL fR))
        else some (.stereo (List.zipWith (fun a b => (a, b)) fL fR))

theorem entryNormalize_length (l : List ℚ) : (entryNormalize l).length = l.length := by
  unfold entryNormalize
  split <;> simp

theorem normalizeClip_length (l : List ℚ) : (normalizeClip l).length = l.length := by
  unfold normalizeClip
  split <;> simp

theorem preEmphasis_length (alpha : ℚ) (l : List ℚ) :
    (preEmphasis alpha l).length = l.length := by
  cases l with
  | nil => rfl
  | cons x xs =>
    simp [preEmphasis]

/-- Claim C7 corrected: the counterexample to "each filter returns a buffer
with the same channel count as its input" — the car effect turns a mono
buffer into a stereo buffer. -/
theorem car_effect_channel_counterexample :
    (apply_car_effect (fun l => l) 44100 (.mono [1/2, 1/2])).map
        SampleBuffer.channelCount = some 2 ∧
    (SampleBuffer.mono [1/2, 1/2]).channelCount = 1 ∧ (2 : ℕ) ≠ 1 := by
  refine ⟨?_, rfl, by decide⟩
  have hm : maxAbsList [1/2, 1/2] ≤ 1 := by
    simp only [maxAbsList, List.map_cons, List.map_nil, List.foldr_cons,
      List.foldr_nil, max_le_iff, abs_le]
    norm_num
  have h1 : entryNormalize [1/2, 1/2] = [1/2, 1/2] := by
    unfold entryNormalize
    rw [if_neg (not_lt.mpr hm)]
  simp only [apply_car_effect, h1]
  rw [if_neg (by norm_num), if_neg (by norm_num), if_neg (by norm_num),
    if_neg (not_lt.mpr hm)]
  rfl

/-- Claim C7 (amended): each of the five audio filters preserves the sample
count of its input (given the documented shape-preservation of the scipy
wiener/filtfilt primitives, which the stereo code paths additionally enforce
through np.zeros_like column assignment); gain compression, voice enhancement,
denoise-delay and the phone effect also preserve the channel count, but the
car effect always returns a two-channel buffer, converting mono input to
stereo. -/
theorem audio_filters_shape_spec
    (wiener : ℚ → List ℚ → List ℚ) (ffV ffP ffC : List ℚ → List ℚ)
    (hw : ∀ w l, (wiener w l).length = l.length)
    (hffV : ∀ l, (ffV l).length = l.length)
    (hffP : ∀ l, (ffP l).length = l.length)
    (threshold ratio sample_rate alpha delay_ms decay wiener_size : ℚ)
    (buf : SampleBuffer) :
    ((apply_gain_compression buf threshold ratio).sampleCount = buf.sampleCount ∧
     (apply_gain_compression buf threshold ratio).channelCount = buf.channelCount) ∧
    (∀ out, apply_voice_enhancement ffV sample_rate alpha buf = some out →
      out.sampleCount = buf.sampleCount ∧ out.channelCount = buf.channelCount) ∧
    (∀ out, apply_denoise_delay wiener sample_rate delay_ms decay wiener_size buf
        = some out →
      out.sampleCount = buf.sampleCount ∧ out.channelCount = buf.channelCount) ∧
    (∀ out, apply_phone_effect ffP sample_rate buf = some out →
      out.sampleCount = buf.sampleCount ∧ out.channelCount = buf.channelCount) ∧
    (∀ out, apply_car_effect ffC sample_rate buf = some out →
      out.sampleCount = buf.sampleCount ∧ out.channelCount = 2) := by
  refine ⟨?_, ?_, ?_, ?_, ?_⟩
  · cases buf <;>
      simp [apply_gain_compression, SampleBuffer.mapSamples,
        SampleBuffer.sampleCount, SampleBuffer.channelCount]
  · intro out h
    cases buf with
    | mono audio =>
      simp only [apply_voice_enhancement] at h
      split_ifs at h
      all_goals
        (rw [Option.some_inj] at h
         subst h
         simp [SampleBuffer.sampleCount, SampleBuffer.channelCount, hffV,
           preEmphasis_length, entryNormalize_length])
    | stereo s =>
      simp only [apply_voice_enhancement] at h
      split_ifs at h
      all_goals
        (rw [Option.some_inj] at h
         subst h
         push_neg at *
         refine ⟨?_, rfl⟩
         simp only [SampleBuffer.sampleCount, List.length_zipWith]
         omega)
  · intro out h
    cases buf with
    | mono audio =>
      simp only [apply_denoise_delay, denoisedSignal] at h
      split_ifs at h
      all_goals
        (rw [Option.some_inj] at h
         subst h
         simp [SampleBuffer.sampleCount, SampleBuffer.channelCount,
           normalizeClip_length, addEcho_length, hw, entryNormalize_length])
    | stereo s =>
      simp only [apply_denoise_delay] at h
      split_ifs at h
      all_goals
        (rw [Option.some_inj] at h
         subst h
         push_neg at *
         refine ⟨?_, rfl⟩
         simp only [SampleBuffer.sampleCount, List.length_zipWith, addEcho_length]
         omega)
  · intro out h
    cases buf with
    | mono audio =>
      simp only [apply_phone_effect] at h
      split_ifs at h
      all_goals
        (rw [Option.some_inj] at h
         subst h
         simp [SampleBuffer.sampleCount, SampleBuffer.channelCount, hffP,
           entryNormalize_length])
    | stereo s =>
      simp only [apply_phone_effect] at h
      split_ifs at h
      all_goals
        (rw [Option.some_inj] at h
         subst h
         push_neg at *
         refine ⟨?_, rfl⟩
         simp only [SampleBuffer.sampleCount, List.length_zipWith]
         omega)
  · intro out h
    cases buf with
    | mono audio =>
      simp only [apply_car_effect] at h
      split_ifs at h
      all_goals
        (rw [Option.some_inj] at h
         subst h
         push_neg at *
         refine ⟨?_, rfl⟩
         simp only [SampleBuffer.sampleCount, List.length_zipWith]
         omega)
    | stereo s =>
      simp only [apply_car_effect] at h
      split_ifs at h
      all_goals
        (rw [Option.some_inj] at h
         subst h
         push_neg at *
         refine ⟨?_, rfl⟩
         simp only [SampleBuffer.sampleCount, List.length_zipWith]
         omega)

theorem audio_filters_shape_spec_witness :
    (apply_gain_compression (SampleBuffer.mono [1/2]) (1/2) 4).sampleCount =
        (SampleBuffer.mono [1/2]).sampleCount ∧
    (apply_gain_compression (SampleBuffer.mono [1/2]) (1/2) 4).channelCount =
        (SampleBuffer.mono [1/2]).channelCount :=
  (audio_filters_shape_spec (fun _ l => l) (fun l => l) (fun l => l) (fun l => l)
    (fun _ _ => rfl) (fun _ => rfl) (fun _ => rfl)
    (1/2) 4 44100 (95/100) 500 (1/2) 1001 (SampleBuffer.mono [1/2])).1

/- ---------------------------------------------------------------------------
   AudioFilterManager.process_audio (backend/app/filters/audio/filter_manager.py). -/

/-- A FilterSpec: a filter name plus a parameter mapping (a Python dict,
modelled as an insertion-ordered association list). -/
structure FilterSpec where
  name : String
  params : List (String × ℚ)
deriving DecidableEq, Repr

/-- Python dict lookup with default (first matching key). -/
def dictGet (params : List (String × ℚ)) (key : String) (dflt : ℚ) : ℚ :=
  match params with
  | [] => dflt
  | kv :: rest => if kv.1 = key then kv.2 else dictGet rest key dflt

/-- Python dict key assignment d[key] = v: overwrite in place if the key is
present, else append. -/
def dictInsert (params : List (String × ℚ)) (key : String) (v : ℚ) :
    List (String × ℚ) :=
  match params with
  | [] => [(key, v)]
  | kv :: rest => if kv.1 = key then (key, v) :: rest else kv :: dictInsert rest key v

/-- Python `key in d`. -/
def hasKey (params : List (String × ℚ)) (key : String) : Bool :=
  params.any (fun kv => kv.1 == key)

/-- The keyword parameters each Python filter function accepts; a key outside
this set makes the `filter_func(processed, **params)` call raise TypeError. -/
def allowedKeys : String → List String
  | "gain_compression" => ["threshold", "ratio"]
  | "voice_enhancement" => ["alpha", "sample_rate"]
  | "denoise_delay" => ["delay_ms", "decay", "wiener_size", "sample_rate"]
  | "phone" => ["sample_rate"]
  | "car" => ["sample_rate"]
  | _ => []

def keysAllowed (params : List (String × ℚ)) (name : String) : Bool :=
  params.all (fun kv => (allowedKeys name).contains kv.1)

/-- The scipy primitives the filters use, abstracted: wiener takes the window
size, each filtfilt is specialized to its filter's Butterworth design and
takes the sample rate the coefficients were computed from. -/
structure DSPPrims where
  wiener : ℚ → List ℚ → List ℚ
  ffVoice : ℚ → List ℚ → List ℚ
  ffPhone : ℚ → List ℚ → List ℚ
  ffCar : ℚ → List ℚ → List ℚ

/-- filter_func(processed, **params) for a recognized name: none models any
raised exception (unexpected keyword -> TypeError, missing required
sample_rate -> TypeError, or an exception inside the filter body). -/
def applyAudioFilter (prims : DSPPrims) (name : String)
    (params : List (String × ℚ)) (buf : SampleBuffer) : Option SampleBuffer :=
  if ¬ keysAllowed params name then none
  else if name = "gain_compression" then
    some (apply_gain_compression buf (dictGet params "threshold" (1/2))
      (dictGet params "ratio" 4))
  else if name = "voice_enhancement" then
    if ¬ hasKey params "sample_rate" then none
    else apply_voice_enhancement (prims.ffVoice (dictGet params "sample_rate" 0))
      (dictGet params "sample_rate" 0) (dictGet params "alpha" (95/100)) buf
  else if name = "denoise_delay" then
    if ¬ hasKey params "sample_rate" then none
    else apply_denoise_delay prims.wiener (dictGet params "sample_rate" 0)
      (dictGet params "delay_ms" 500) (dictGet params "decay" (1/2))
      (dictGet params "wiener_size" 1001) buf
  else if name = "phone" then
    if ¬ hasKey params "sample_rate" then none
    else apply_phone_effect (prims.ffPhone (dictGet params "sample_rate" 0))
      (dictGet params "sample_rate" 0) buf
  else if name = "car" then
    if ¬ hasKey params "sample_rate" then none
    else apply_car_effect (prims.ffCar (dictGet params "sample_rate" 0))
      (dictGet params "sample_rate" 0) buf
  else none

/-- The names registered in AudioFilterManager.filters. -/
def audioFilterNames : List String :=
  ["gain_compression", "voice_enhancement", "denoise_delay", "phone", "car"]

/-- The names for which process_audio executes
`params["sample_rate"] = sample_rate` before the call, mutating the caller's
params dict in place. -/
def srFilterNames : List String :=
  ["voice_enhancement", "denoise_delay", "phone", "car"]

/-- The params dict of a FilterSpec as it stands when the filter function is
called — and, the assignment being in place on the caller's dict, as the
caller observes it after process_audio returns. -/
def effParams (sample_rate : ℚ) (fc : FilterSpec) : List (String × ℚ) :=
  if fc.name ∈ srFilterNames then dictInsert fc.params "sample_rate" sample_rate
  else fc.params

/-- One iteration of the process_audio loop, acting on the running buffer:
an unknown name is skipped with a logged warning; a recognized filter whose
call raises is caught and the buffer carried forward unchanged. -/
def audioStep (prims : DSPPrims) (sample_rate : ℚ) (buf : SampleBuffer)
    (fc : FilterSpec) : SampleBuffer :=
  if fc.name ∈ audioFilterNames then
    match applyAudioFilter prims fc.name (effParams sample_rate fc) buf with
    | some b => b
    | none => buf
  else buf

/-- AudioFilterManager.process_audio (filter_manager.py): the returned buffer.
The entry astype(np.float32) makes the renormalization branch dead code, so
the input buffer enters the loop unchanged. The in-place mutation of the
caller's filter configs is modelled separately by process_audio_postChain. -/
def process_audio (prims : DSPPrims) (sample_rate : ℚ) (audio : SampleBuffer)
    (filters_config : List FilterSpec) : SampleBuffer :=
  filters_config.foldl (audioStep prims sample_rate) audio

/-- The caller's filters_config list as it stands after process_audio returns:
every spec whose name is in srFilterNames has had params["sample_rate"]
assigned in place. -/
def process_audio_postChain (sample_rate : ℚ)
    (filters_config : List FilterSpec) : List FilterSpec :=
  filters_config.map (fun fc => ⟨fc.name, effParams sample_rate fc⟩)

/-- Claim C4: process_audio skips a FilterSpec with an unrecognized name
(warning only, non-fatal), and skips a recognized filter whose application
raises, carrying the buffer forward unchanged by that stage; in both cases
the result equals processing the chain with the bad stage removed, so the
remaining filters are still applied. -/
theorem process_audio_skips (prims : DSPPrims) (sample_rate : ℚ)
    (audio : SampleBuffer) (pre post : List FilterSpec) (fc : FilterSpec) :
    (fc.name ∉ audioFilterNames →
      process_audio prims sample_rate audio (pre ++ fc :: post) =
        process_audio prims sample_rate audio (pre ++ post)) ∧
    (applyAudioFilter prims fc.name (effParams sample_rate fc)
        (process_audio prims sample_rate audio pre) = none →
      process_audio prims sample_rate audio (pre ++ fc :: post) =
        process_audio prims sample_rate audio (pre ++ post)) := by
  constructor
  · intro hname
    simp only [process_audio, List.foldl_append, List.foldl_cons]
    congr 1
    simp [audioStep, hname]
  · intro happ
    simp only [process_audio] at happ ⊢
    simp only [List.foldl_append, List.foldl_cons]
    congr 1
    have hstep : ∀ b, applyAudioFilter prims fc.name (effParams sample_rate fc) b
        = none → audioStep prims sample_rate b fc = b := by
      intro b hb
      unfold audioStep
      split
      · rw [hb]
      · rfl
    exact hstep _ happ

theorem process_audio_skips_witness :
    process_audio ⟨fun _ l => l, fun _ l => l, fun _ l => l, fun _ l => l⟩ 44100
      (SampleBuffer.mono [1/2])
      ([] ++ FilterSpec.mk "reverb" [] :: [FilterSpec.mk "gain_compression" []]) =
    process_audio ⟨fun _ l => l, fun _ l => l, fun _ l => l, fun _ l => l⟩ 44100
      (SampleBuffer.mono [1/2]) ([] ++ [FilterSpec.mk "gain_compression" []]) :=
  (process_audio_skips ⟨fun _ l => l, fun _ l => l, fun _ l => l, fun _ l => l⟩
    44100 (SampleBuffer.mono [1/2]) [] [FilterSpec.mk "gain_compression" []]
    (FilterSpec.mk "reverb" [])).1 (by decide)

/-- Claim C8 corrected: the counterexample to "process_audio consumes each
FilterSpec read-only". A phone spec supplied with empty params comes back
with params = [("sample_rate", 44100)]: the loop executes
`params["sample_rate"] = sample_rate` on the caller's dict. -/
theorem process_audio_params_mutation_counterexample :
    process_audio_postChain 44100 [FilterSpec.mk "phone" []] =
      [FilterSpec.mk "phone" [("sample_rate", 44100)]] ∧
    FilterSpec.mk "phone" [("sample_rate", 44100)] ≠ FilterSpec.mk "phone" [] := by
  constructor
  · rfl
  · decide

theorem effParams_default (sample_rate : ℚ) :
    effParams sample_rate ⟨"", []⟩ = [] := by
  simp [effParams, srFilterNames]

theorem postChain_getD (sample_rate : ℚ) (l : List FilterSpec) (i : ℕ) :
    (process_audio_postChain sample_rate l).getD i ⟨"", []⟩ =
      ⟨(l.getD i ⟨"", []⟩).name, effParams sample_rate (l.getD i ⟨"", []⟩)⟩ := by
  unfold process_audio_postChain
  rw [List.getD_eq_getElem?_getD, List.getD_eq_getElem?_getD, List.getElem?_map]
  cases l[i]? with
  | none => simp [effParams_default]
  | some fc => simp

theorem dictGet_dictInsert_ne (params : List (String × ℚ)) (key k : String)
    (v dflt : ℚ) (h : k ≠ key) :
    dictGet (dictInsert params key v) k dflt = dictGet params k dflt := by
  induction params with
  | nil => simp [dictInsert, dictGet, Ne.symm h]
  | cons kv rest ih =>
    simp only [dictInsert]
    split
    · rename_i heq
      simp [dictGet, heq, Ne.symm h]
    · simp only [dictGet]
      split
      · rfl
      · exact ih

/-- Claim C8 (amended): process_audio never changes a FilterSpec's name, and
leaves the params of unrecognized specs and of gain_compression specs
unchanged; but for specs named voice_enhancement, denoise_delay, phone or car
it assigns params["sample_rate"] = sample_rate in place on the caller's dict,
adding or overwriting that key; every other key's value is preserved. -/
theorem process_audio_postchain_spec (sample_rate : ℚ)
    (filters_config : List FilterSpec) (i : ℕ) (fc : FilterSpec)
    (hfc : filters_config.getD i ⟨"", []⟩ = fc) :
    (process_audio_postChain sample_rate filters_config).length =
      filters_config.length ∧
    ((process_audio_postChain sample_rate filters_config).getD i ⟨"", []⟩).name =
      fc.name ∧
    (fc.name ∉ srFilterNames →
      (process_audio_postChain sample_rate filters_config).getD i ⟨"", []⟩ = fc) ∧
    (fc.name ∈ srFilterNames →
      ((process_audio_postChain sample_rate filters_config).getD i
          ⟨"", []⟩).params = dictInsert fc.params "sample_rate" sample_rate) ∧
    (∀ key dflt, key ≠ "sample_rate" →
      dictGet (effParams sample_rate fc) key dflt = dictGet fc.params key dflt) := by
  have hp := postChain_getD sample_rate filters_config i
  rw [hfc] at hp
  refine ⟨by simp [process_audio_postChain], ?_, ?_, ?_, ?_⟩
  · rw [hp]
  · intro hname
    rw [hp]
    unfold effParams
    rw [if_neg hname]
  · intro hname
    rw [hp]
    unfold effParams
    rw [if_pos hname]
  · intro key dflt hkey
    unfold effParams
    split
    · exact dictGet_dictInsert_ne fc.params "sample_rate" key sample_rate dflt hkey
    · rfl

theorem process_audio_postchain_spec_witness :
    ((process_audio_postChain 44100 [FilterSpec.mk "phone" [("x", 7)]]).getD 0
        ⟨"", []⟩).params =
      dictInsert [("x", 7)] "sample_rate" 44100 :=
  (process_audio_postchain_spec 44100 [FilterSpec.mk "phone" [("x", 7)]] 0
    (FilterSpec.mk "phone" [("x", 7)]) rfl).2.2.2.1 (by decide)

/- ---------------------------------------------------------------------------
   merge_audio_with_video (backend/app/filters/audio/utils.py). -/

/-- Python str.lower() on the ASCII range (extensions are ASCII). -/
def charLower (c : Char) : Char :=
  if 65 ≤ c.toNat ∧ c.toNat ≤ 90 then Char.ofNat (c.toNat + 32) else c

def pyLower (s : String) : String := ⟨s.data.map charLower⟩

/-- A path split the way os.path.splitext splits it: stem plus extension,
the extension carrying the leading dot. -/
structure MPath where
  stem : String
  ext : String
deriving DecidableEq, Repr

/-- The extensions for which merge_audio_with_video classifies the input as
audio-only (input_path.lower().endswith(ext)). -/
def audio_extensions : List String :=
  [".mp3", ".wav", ".aac", ".ogg", ".flac", ".m4a"]

/-- The audio codec selected for the ffmpeg command. -/
inductive MergeCodec
  | libmp3lame
  | aac
  | pcm_s16le
  | videoCopyAac
deriving DecidableEq, Repr

/-- Which file the built ffmpeg command writes, and with which audio codec. -/
structure MergeResult where
  written : MPath
  codec : MergeCodec
deriving DecidableEq, Repr

/-- merge_audio_with_video (utils.py): the audio-only branch dispatches on the
lowered output extension (.mp3 / .m4a / .aac / .wav); any other extension
falls back to the MP3 encoder but REPLACES the output path by
splitext(output_path)[0] + ".mp3". The non-audio branch consults ffprobe
(hasVideoStream). -/
def merge_audio_with_video (input_path output_path : MPath)
    (hasVideoStream : Bool) : MergeResult :=
  if pyLower input_path.ext ∈ audio_extensions then
    if pyLower output_path.ext = ".mp3" then ⟨output_path, .libmp3lame⟩
    else if pyLower output_path.ext = ".m4a" ∨ pyLower output_path.ext = ".aac" then
      ⟨output_path, .aac⟩
    else if pyLower output_path.ext = ".wav" then ⟨output_path, .pcm_s16le⟩
    else ⟨⟨output_path.stem, ".mp3"⟩, .libmp3lame⟩
  else
    if hasVideoStream then ⟨output_path, .videoCopyAac⟩
    else if pyLower output_path.ext = ".mp3" then ⟨output_path, .libmp3lame⟩
    else ⟨output_path, .aac⟩

/-- Claim C9 corrected: the counterexample to "the remux step produces the
output artifact at the requested output path" for an unrecognized extension.
Requesting out.ogg from an audio-only source makes the code write out.mp3
instead. -/
theorem merge_unknown_ext_counterexample :
    (merge_audio_with_video ⟨"song", ".mp3"⟩ ⟨"out", ".ogg"⟩ false).written =
      ⟨"out", ".mp3"⟩ ∧
    (MPath.mk "out" ".mp3") ≠ ⟨"out", ".ogg"⟩ ∧
    (merge_audio_with_video ⟨"song", ".mp3"⟩ ⟨"out", ".ogg"⟩ false).codec =
      .libmp3lame := by
  refine ⟨by rfl, by decide, by rfl⟩

/-- Claim C9 (amended): for an audio-only source artifact whose requested
output extension is not one of .mp3/.m4a/.aac/.wav, the remux step encodes
the processed track with the default lossy MP3 encoder, but writes the
artifact to the requested path with its extension replaced by ".mp3", not to
the requested output path itself. -/
theorem merge_unknown_ext_spec (input_path output_path : MPath) (hv : Bool)
    (hin : pyLower input_path.ext ∈ audio_extensions)
    (hout : pyLower output_path.ext ∉ [".mp3", ".m4a", ".aac", ".wav"]) :
    merge_audio_with_video input_path output_path hv =
      ⟨⟨output_path.stem, ".mp3"⟩, .libmp3lame⟩ := by
  simp only [List.mem_cons, List.not_mem_nil, or_false, not_or] at hout
  obtain ⟨h1, h2, h3, h4⟩ := hout
  unfold merge_audio_with_video
  rw [if_pos hin, if_neg h1, if_neg (not_or.mpr ⟨h2, h3⟩), if_neg h4]

theorem merge_unknown_ext_spec_witness :
    merge_audio_with_video ⟨"track", ".wav"⟩ ⟨"result", ".flac"⟩ true =
      ⟨⟨"result", ".mp3"⟩, .libmp3lame⟩ :=
  merge_unknown_ext_spec ⟨"track", ".wav"⟩ ⟨"result", ".flac"⟩ true
    (by decide) (by decide)

/- ---------------------------------------------------------------------------
   AudioFilterManager.process_video (backend/app/filters/audio/filter_manager.py)
   under failure injection of its fallible external steps. -/

/-- Failure injection for the orchestrator's fallible steps: audio extraction,
the filter-chain processing, the first save_audio_to_wav, the retry saving the
original audio inside the except handler, and the final remux command. -/
structure AudioPipelineFailures where
  extractOk : Bool
  processOk : Bool
  saveOk : Bool
  saveRetryOk : Bool
  mergeOk : Bool
deriving DecidableEq, Repr

/-- What a pipeline step can leave at the requested output path. -/
inductive AudioOutput
  | copySource
  | remuxed (audio : SampleBuffer)
deriving DecidableEq, Repr

/-- AudioFilterManager.process_video, as the contents of the REQUESTED output
path when the call returns (none = no file there). Empty chain: shutil copy.
Failed extraction: copy. Failed processing: the original audio is carried on.
Failed save: retried with the original audio; if the retry also raises, the
outer handler copies. Failed merge command: copy. A merge command that
succeeds raises nothing and writes the remuxed track to the path
merge_audio_with_video chooses — which, for an audio-only source whose
requested output extension is outside .mp3/.m4a/.aac/.wav, is
splitext(output_path)[0] + ".mp3" rather than output_path itself, so the
requested output path gets no file and no fallback fires. -/
def audio_process_video (f : AudioPipelineFailures) (prims : DSPPrims)
    (sample_rate : ℚ) (input_path output_path : MPath) (hasVideoStream : Bool)
    (sourceAudio : SampleBuffer) (filters_config : List FilterSpec) :
    Option AudioOutput :=
  if filters_config = [] then some .copySource
  else if f.extractOk = false then some .copySource
  else
    let processed := if f.processOk
      then process_audio prims sample_rate sourceAudio filters_config
      else sourceAudio
    if f.saveOk then
      if f.mergeOk then
        if (merge_audio_with_video input_path output_path hasVideoStream).written
            = output_path
        then some (.remuxed processed) else none
      else some .copySource
    else if f.saveRetryOk then
      if f.mergeOk then
        if (merge_audio_with_video input_path output_path hasVideoStream).written
            = output_path
        then some (.remuxed sourceAudio) else none
      else some .copySource
    else some .copySource

/-- Claim C2 corrected: the counterexample to "a file always exists at
outputArtifact when the call returns". Every step succeeds: audio-only source
song.mp3, requested output temp_video.mp4 (the path the HTTP layer always
requests), a video-less probe. The successful merge writes temp_video.mp3
instead of the requested path, no stage raises, no fallback copy fires, and
the call returns with nothing at the requested output path. -/
theorem audio_process_video_absent_counterexample :
    audio_process_video ⟨true, true, true, true, true⟩
      ⟨fun _ l => l, fun _ l => l, fun _ l => l, fun _ l => l⟩ 44100
      ⟨"song", ".mp3"⟩ ⟨"temp_video", ".mp4"⟩ false
      (SampleBuffer.mono [1/2]) [FilterSpec.mk "phone" []] = none ∧
    (merge_audio_with_video ⟨"song", ".mp3"⟩ ⟨"temp_video", ".mp4"⟩
        false).written = ⟨"temp_video", ".mp3"⟩ ∧
    MPath.mk "temp_video" ".mp3" ≠ ⟨"temp_video", ".mp4"⟩ := by
  refine ⟨by rfl, by rfl, by decide⟩

/-- Claim C2 (amended): on every irrecoverable failure (extraction failed,
both save attempts failed, or the merge command failed) the orchestrator
falls back to copying the source unchanged to the requested output path; but
the pipeline CAN leave outputArtifact absent with no stage failing: the
requested output path ends up without a file exactly when the chain is
nonempty, extraction and at least one save succeed, and the merge command
succeeds but writes to a different path — which happens for an audio-only
source whose requested output extension is outside .mp3/.m4a/.aac/.wav, where
the merge writes splitext(output)+".mp3" instead. -/
theorem audio_process_video_fallback_spec (f : AudioPipelineFailures)
    (prims : DSPPrims) (sample_rate : ℚ) (input_path output_path : MPath)
    (hasVideoStream : Bool) (sourceAudio : SampleBuffer)
    (filters_config : List FilterSpec) :
    ((f.extractOk = false ∨ (f.saveOk = false ∧ f.saveRetryOk = false) ∨
        f.mergeOk = false) →
      audio_process_video f prims sample_rate input_path output_path
        hasVideoStream sourceAudio filters_config = some .copySource) ∧
    (audio_process_video f prims sample_rate input_path output_path
        hasVideoStream sourceAudio filters_config = none ↔
      (filters_config ≠ [] ∧ f.extractOk = true ∧
        (f.saveOk = true ∨ f.saveRetryOk = true) ∧ f.mergeOk = true ∧
        (merge_audio_with_video input_path output_path hasVideoStream).written ≠
          output_path)) := by
  obtain ⟨e, p, s, sr, m⟩ := f
  unfold audio_process_video
  by_cases hc : filters_config = [] <;>
    by_cases hw : (merge_audio_with_video input_path output_path
      hasVideoStream).written = output_path <;>
    cases e <;> cases p <;> cases s <;> cases sr <;> cases m <;> simp [hc, hw]

theorem audio_process_video_fallback_spec_witness :
    audio_process_video ⟨true, true, true, true, false⟩
      ⟨fun _ l => l, fun _ l => l, fun _ l => l, fun _ l => l⟩ 44100
      ⟨"song", ".mp3"⟩ ⟨"out", ".wav"⟩ false
      (SampleBuffer.mono [1/2]) [FilterSpec.mk "phone" []] = some .copySource :=
  (audio_process_video_fallback_spec ⟨true, true, true, true, false⟩
    ⟨fun _ l => l, fun _ l => l, fun _ l => l, fun _ l => l⟩ 44100
    ⟨"song", ".mp3"⟩ ⟨"out", ".wav"⟩ false
    (SampleBuffer.mono [1/2]) [FilterSpec.mk "phone" []]).1
    (Or.inr (Or.inr rfl))

/- ---------------------------------------------------------------------------
   VideoFilterManager.process_video (backend/app/filters/video/filter_manager.py). -/

/-- Paths in the video pipeline: the source artifact, the output artifact, and
the per-stage intermediates inside the invocation's temporary directory. -/
inductive VPath
  | inP
  | outP
  | tmp (i : ℕ)
deriving DecidableEq, Repr

/-- The names registered in VideoFilterManager.filters. -/
def videoFilterNames : List String :=
  ["grayscale", "color_invert", "frame_interpolation", "upscaling"]

/-- Abstract file contents: none = no file at the path; some ops = the source
content transformed by the named filter operations, in order. -/
abbrev VFS := VPath → Option (List String)

/-- The filesystem at pipeline entry: only the input artifact exists. -/
def initVFS : VFS := fun p => if p = VPath.inP then some [] else none

/-- The loop state: the filesystem and the temp_output cursor the next stage
reads from. -/
structure VState where
  fs : VFS
  temp_output : VPath

/-- One iteration of the process_video loop at index i of n stages.
A recognized filter transcodes temp_output into the stage target (outP for the
last index, a temp file otherwise) and, except at the last index, advances the
cursor. An unrecognized name leaves the state entirely unchanged: nothing is
written and the cursor stays (the `else` in the source is attached to the
`for`, so the skip warning is logged once after the loop, not per stage).
Filter invocations are modelled as succeeding; the exception fallback path is
not exercised by claim C1. -/
def vStep (n : ℕ) (st : VState) (i : ℕ) (fc : FilterSpec) : VState :=
  if fc.name ∈ videoFilterNames then
    { fs := fun p => if p = (if i = n - 1 then VPath.outP else VPath.tmp i)
        then some ((st.fs st.temp_output).getD [] ++ [fc.name]) else st.fs p,
      temp_output := if i < n - 1 then (if i = n - 1 then VPath.outP else VPath.tmp i)
        else st.temp_output }
  else st

def vLoop (n : ℕ) : ℕ → List FilterSpec → VState → VState
  | _, [], st => st
  | i, fc :: rest, st => vLoop n (i + 1) rest (vStep n st i fc)

/-- VideoFilterManager.process_video: the filesystem the caller observes after
the call returns — the temporary processing directory has been removed by
then. An empty chain copies the source to the output without re-encoding. -/
def video_process_video (filters_config : List FilterSpec) : VFS :=
  if filters_config = [] then
    fun p => if p = VPath.outP then some [] else initVFS p
  else
    let st := vLoop filters_config.length 0 filters_config ⟨initVFS, VPath.inP⟩
    fun p => match p with
      | .tmp _ => none
      | _ => st.fs p

/-- The names of the recognized filters of a chain, in order. -/
def recognizedVideoNames (filters_config : List FilterSpec) : List String :=
  (filters_config.map FilterSpec.name).filter (fun s => decide (s ∈ videoFilterNames))

/-- Claim C1 corrected: the counterexample to "if the unknown filter is the
last stage the pipeline still produces a file at outputArtifact". With an
unknown name in last position — alone or after a recognized filter — nothing
is ever written to the output path: the function still returns that path, but
the last recognized stage only wrote to a temp file that is deleted with the
temporary directory. -/
theorem video_unknown_last_counterexample :
    video_process_video [FilterSpec.mk "grayscale" [], FilterSpec.mk "sepia" []]
      VPath.outP = none ∧
    video_process_video [FilterSpec.mk "sepia" []] VPath.outP = none := by
  constructor <;> rfl

theorem vLoop_spec (rest : List FilterSpec) (n i : ℕ) (st : VState) (c : List String)
    (hn : i + rest.length = n) (hout : st.fs VPath.outP = none)
    (hto : st.temp_output ≠ VPath.outP)
    (htc : st.fs st.temp_output = some c) :
    (∀ last, rest.getLast? = some last → last.name ∈ videoFilterNames →
      (vLoop n i rest st).fs VPath.outP = some (c ++ recognizedVideoNames rest)) ∧
    (∀ last, rest.getLast? = some last → last.name ∉ videoFilterNames →
      (vLoop n i rest st).fs VPath.outP = none) := by
  induction rest generalizing i st c with
  | nil =>
    exact ⟨fun last h => absurd h (by simp), fun last h _ => absurd h (by simp)⟩
  | cons fc rest ih =>
    cases rest with
    | nil =>
      have hi : i = n - 1 := by
        simp only [List.length_cons, List.length_nil] at hn
        omega
      constructor
      · intro last hlast hrec
        have hfc : fc = last := by simpa using hlast
        subst hfc
        show (vStep n st i fc).fs VPath.outP = _
        unfold vStep
        rw [if_pos hrec, hi]
        simp [htc, recognizedVideoNames, hrec]
      · intro last hlast hrec
        have hfc : fc = last := by simpa using hlast
        subst hfc
        show (vStep n st i fc).fs VPath.outP = none
        unfold vStep
        rw [if_neg hrec]
        exact hout
    | cons r rest2 =>
      have hlt : i < n - 1 := by
        simp only [List.length_cons] at hn
        omega
      have hne : i ≠ n - 1 := by omega
      by_cases hrec : fc.name ∈ videoFilterNames
      · have hstep : vStep n st i fc =
            { fs := fun p => if p = VPath.tmp i
                then some (c ++ [fc.name]) else st.fs p,
              temp_output := VPath.tmp i } := by
          unfold vStep
          rw [if_pos hrec]
          congr 1
          · funext p
            rw [if_neg hne, htc]
            rfl
          · rw [if_pos hlt, if_neg hne]
        have hih := ih (i + 1) (vStep n st i fc) (c ++ [fc.name])
          (by simp only [List.length_cons] at hn ⊢; omega)
          (by rw [hstep]; simp [hout])
          (by rw [hstep]; simp)
          (by rw [hstep]; simp)
        constructor
        · intro last hlast hlrec
          have hl2 : (r :: rest2).getLast? = some last := by
            rw [← List.getLast?_cons_cons]
            exact hlast
          show (vLoop n (i + 1) (r :: rest2) (vStep n st i fc)).fs VPath.outP = _
          rw [hih.1 last hl2 hlrec]
          simp [recognizedVideoNames, hrec]
        · intro last hlast hlrec
          have hl2 : (r :: rest2).getLast? = some last := by
            rw [← List.getLast?_cons_cons]
            exact hlast
          show (vLoop n (i + 1) (r :: rest2) (vStep n st i fc)).fs VPath.outP = none
          exact hih.2 last hl2 hlrec
      · have hstep : vStep n st i fc = st := by
          unfold vStep
          rw [if_neg hrec]
        have hih := ih (i + 1) (vStep n st i fc) c
          (by simp only [List.length_cons] at hn ⊢; omega)
          (by rw [hstep]; exact hout)
          (by rw [hstep]; exact hto)
          (by rw [hstep]; exact htc)
        constructor
        · intro last hlast hlrec
          have hl2 : (r :: rest2).getLast? = some last := by
            rw [← List.getLast?_cons_cons]
            exact hlast
          show (vLoop n (i + 1) (r :: rest2) (vStep n st i fc)).fs VPath.outP = _
          rw [hih.1 last hl2 hlrec]
          simp [recognizedVideoNames, hrec]
        · intro last hlast hlrec
          have hl2 : (r :: rest2).getLast? = some last := by
            rw [← List.getLast?_cons_cons]
            exact hlast
          show (vLoop n (i + 1) (r :: rest2) (vStep n st i fc)).fs VPath.outP = none
          exact hih.2 last hl2 hlrec

/-- Claim C1 (amended): unknown names in the video chain are stage
passthroughs — after the run the output artifact, when the chain is empty or
ends in a recognized filter, holds the source transformed by exactly the
chain's recognized filters in order; but when a nonempty chain ends in an
unrecognized name, NO file is produced at the output path (the function still
returns that path). -/
theorem video_process_spec (filters_config : List FilterSpec) :
    (filters_config = [] → video_process_video filters_config VPath.outP = some []) ∧
    (∀ last, filters_config.getLast? = some last → last.name ∈ videoFilterNames →
      video_process_video filters_config VPath.outP =
        some (recognizedVideoNames filters_config)) ∧
    (∀ last, filters_config.getLast? = some last → last.name ∉ videoFilterNames →
      video_process_video filters_config VPath.outP = none) := by
  refine ⟨?_, ?_, ?_⟩
  · intro h
    subst h
    rfl
  · intro last hl hr
    have hne : filters_config ≠ [] := by
      intro h
      subst h
      simp at hl
    unfold video_process_video
    rw [if_neg hne]
    show (vLoop filters_config.length 0 filters_config
      ⟨initVFS, VPath.inP⟩).fs VPath.outP = _
    have h := (vLoop_spec filters_config filters_config.length 0
      ⟨initVFS, VPath.inP⟩ [] (by omega) (by simp [initVFS]) (by simp)
      (by simp [initVFS])).1 last hl hr
    rw [h]
    simp
  · intro last hl hr
    have hne : filters_config ≠ [] := by
      intro h
      subst h
      simp at hl
    unfold video_process_video
    rw [if_neg hne]
    show (vLoop filters_config.length 0 filters_config
      ⟨initVFS, VPath.inP⟩).fs VPath.outP = none
    exact (vLoop_spec filters_config filters_config.length 0
      ⟨initVFS, VPath.inP⟩ [] (by omega) (by simp [initVFS]) (by simp)
      (by simp [initVFS])).2 last hl hr

theorem video_process_spec_witness :
    video_process_video
        [FilterSpec.mk "sepia" [], FilterSpec.mk "grayscale" []] VPath.outP =
      some (recognizedVideoNames
        [FilterSpec.mk "sepia" [], FilterSpec.mk "grayscale" []]) :=
  (video_process_spec [FilterSpec.mk "sepia" [], FilterSpec.mk "grayscale" []]).2.1
    (FilterSpec.mk "grayscale" []) rfl (by decide)

end MSS
